import Mathlib

/-!
# TunnelEngine — verification of the reverse-tunnel core

Shallow embedding of the TunnelEngine reverse multiplexed tunnel
(`reverse/server/server.go`, `reverse/client/client.go`, the two unnamed
server variants, `simple/simple.go`) and proofs about the spec's claims.

Bytes are modelled as natural numbers below 256, byte strings as `List Nat`.
Go code that can panic is modelled with `Option`/explicit outcome types.
-/

set_option maxRecDepth 8000

namespace TunnelEngine

/-! ## Byte-string primitives -/

/-- Binary length of a single byte value, by direct comparison. -/
def bitLen8 (n : Nat) : Nat :=
  if n = 0 then 0 else if n < 2 then 1 else if n < 4 then 2
  else if n < 8 then 3 else if n < 16 then 4 else if n < 32 then 5
  else if n < 64 then 6 else if n < 128 then 7 else 8

/-- Fuel-driven loop computing the binary length a byte at a time;
structural recursion so that proofs can evaluate it on 2048-bit values. -/
def bitLenAux (fuel : Nat) (n : Nat) : Nat :=
  match fuel with
  | 0 => 0
  | f + 1 => if n < 256 then bitLen8 n else bitLenAux f (n / 256) + 8

/-- Number of binary digits of `n` (Go `big.Int.BitLen`). -/
def bitLen (n : Nat) : Nat := bitLenAux n n

/-- Big-endian conversion of an integer to exactly `k` bytes
(I2OSP from PKCS#1; Go `big.Int.FillBytes`). -/
def i2osp (x : Nat) : Nat → List Nat
  | 0 => []
  | k + 1 => i2osp (x / 256) k ++ [x % 256]

/-- Big-endian conversion of a byte string to an integer
(OS2IP from PKCS#1; Go `big.Int.SetBytes`). -/
def os2ip (bs : List Nat) : Nat :=
  bs.foldl (fun acc b => acc * 256 + b) 0

/-- A well-formed byte string: every element is an octet. -/
def BytesWF (bs : List Nat) : Prop := ∀ b ∈ bs, b < 256

/-! ## Bidirectional copier (part_001 lines 22-34, `handleStream` lines 237-258,
`simple.go` `handleConnection` lines 63-99)

`copyBuffer` (part_001 lines 29-34) draws a 32 KiB buffer from the pool and
runs `io.CopyBuffer`: repeatedly read up to one buffer of bytes from the
source and write them unchanged to the destination, until the source is
exhausted. -/

/-- Size of the pooled copy buffer: `make([]byte, 32*1024)` (part_001 line 25). -/
def bufferPoolSize : Nat := 32 * 1024

/-- One run of `copyBuffer`/`io.CopyBuffer`: `dst` is what the destination has
already received, `src` what the source will still deliver.  Each loop
iteration moves at most `bufferPoolSize` bytes, appending them to the
destination in arrival order. -/
def copyBuffer (dst src : List Nat) : List Nat :=
  if h : src = [] then dst
  else copyBuffer (dst ++ src.take bufferPoolSize) (src.drop bufferPoolSize)
termination_by src.length
decreasing_by
  simp only [List.length_drop]
  have hs : 0 < src.length := List.length_pos.mpr h
  have hb : 0 < bufferPoolSize := by norm_num [bufferPoolSize]
  omega

/-- Plain `io.Copy` (client.go lines 173-174, simple.go lines 81, 90): same
chunked loop with the writer's own buffer; delivery starts from an empty
destination. -/
def ioCopy (src : List Nat) : List Nat := copyBuffer [] src

/-- Bytes delivered by the full user-to-local path of one paired stream:
P copies the user connection into the stream (`copyBuffer(stream, userConn)`,
part_001 line 248), the multiplex layer delivers the stream bytes in order
(spec §4.3 contract, external collaborator), and R copies the stream into the
local connection (`io.Copy(localConn, stream)`, client.go line 173). -/
def relayUserToLocal (userSent : List Nat) : List Nat :=
  ioCopy (copyBuffer [] userSent)

/-- Bytes delivered by the local-to-user path: R copies the local connection
into the stream (`io.Copy(stream, localConn)`, client.go line 174) and P
copies the stream into the user connection (`copyBuffer(userConn, stream)`,
part_001 line 254). -/
def relayLocalToUser (localSent : List Nat) : List Nat :=
  ioCopy (copyBuffer [] localSent)

/-! ## Round-robin target selection on R (client.go lines 131-175)

The accept loop keeps `var localIdx int` (line 132), and per accepted stream
executes `localAddr := cfg.LocalListenAddr[localIdx]` followed by
`localIdx = (localIdx + 1) % len(cfg.LocalListenAddr)` (lines 154-156).
Go indexing out of range panics, and `% 0` panics; both are modelled as
`none`. -/

/-- One round-robin pick: the dialed address and the updated index, `none` if
the selection panics. -/
def selectTarget (addrs : List String) (idx : Nat) : Option (String × Nat) :=
  match addrs.get? idx with
  | none => none
  | some a => some (a, (idx + 1) % addrs.length)

/-- Indexes consumed by `m` successively accepted streams starting from
round-robin state `idx`, for a list of `k` targets (client.go lines 154-156;
`k > 0`, otherwise the first pick panics). -/
def rrIndices (k : Nat) : Nat → Nat → List Nat
  | 0, _ => []
  | m + 1, idx => idx :: rrIndices k m ((idx + 1) % k)

/-! ## No-mux mode on R (client.go lines 181-200)

With `useMux = false` the supervisor iteration body declares `var localIdx
int` (line 183) — a fresh, zero-valued variable scoped to this iteration —
dials `cfg.LocalListenAddr[localIdx]`, assigns `localIdx = (localIdx + 1) %
len(...)` (line 185), and ends; the updated index dies with the iteration
scope.  Nothing is carried from one supervisor iteration to the next. -/

/-- State that R's supervisor carries across no-mux iterations.  Every
variable of the iteration, `localIdx` included, is declared inside the loop
body (client.go lines 61-201), so the persistent state is empty. -/
def NoMuxLoopState : Type := Unit

/-- One no-mux supervisor iteration, restricted to target selection: returns
the index dialed (`none` = panic on an empty list) and the state passed to
the next iteration. -/
def noMuxIter (addrs : List String) (_s : NoMuxLoopState) :
    Option Nat × NoMuxLoopState :=
  -- var localIdx int                                   (line 183)
  let localIdx : Nat := 0
  match selectTarget addrs localIdx with
  | none => (none, ())          -- index panic: empty list (line 184)
  | some _ => (some localIdx, ())
  -- localIdx = (localIdx + 1) % len(...)               (line 185, scope ends)

/-- The per-iteration dial record of the first `iters` no-mux iterations. -/
def noMuxDialTrace (addrs : List String) : Nat → List (Option Nat) × NoMuxLoopState
  | 0 => ([], ())
  | n + 1 =>
    let (tr, s) := noMuxDialTrace addrs n
    let (d, s2) := noMuxIter addrs s
    (tr ++ [d], s2)

/-- Index dialed by no-mux supervisor iteration number `n` (0-based). -/
def noMuxDialedIdx (addrs : List String) (n : Nat) : Option Nat :=
  ((noMuxDialTrace addrs (n + 1)).1).getD n none

/-! ## Stream-concurrency admission control on P
(part_001 second variant, lines 432-488)

Per accepted user connection the handler goroutine executes, under
`streamCountMu`:
  * lines 458-463: if `maxConcurrentStreams > 0 && streamCount >=
    maxConcurrentStreams`, unlock and `return` — the deferred
    `userConn.Close()` fires, no stream is opened;
  * lines 464-465: otherwise `streamCount++`;
  * lines 466-470: a deferred decrement runs when the handler finishes
    (after the copier completes or `OpenStream` fails).
The mutex makes each of these compound updates atomic, so the whole loop is
an interleaving of the atomic events below. -/

/-- Shared admission state: `streamCount` plus the breakdown of what it
counts — handlers that incremented but whose `OpenStream` has not returned
yet, and streams currently open. -/
structure AdmState where
  admitted : Nat
  opened : Nat
  count : Nat
  deriving DecidableEq, Repr

/-- Atomic events of the admission protocol. -/
inductive AdmEvent
  /-- lines 458-465 taken with `count < cap` (or no cap): increment. -/
  | enter
  /-- lines 458-463 taken with `cap > 0` and `count ≥ cap`: the user
  connection is closed, nothing else changes. -/
  | reject
  /-- line 472 `session.OpenStream()` returns a live stream. -/
  | openOk
  /-- lines 472-483 `OpenStream` fails: handler returns, deferred decrement
  fires. -/
  | openFail
  /-- copier done, stream closed (line 484), deferred decrement (466-470). -/
  | streamDone
  deriving DecidableEq, Repr

/-- Guarded small step of the admission protocol with cap `cap`
(`maxConcurrentStreams`); `none` when the event is not enabled. -/
def admStep (cap : Nat) (s : AdmState) : AdmEvent → Option AdmState
  | .enter =>
    if 0 < cap ∧ cap ≤ s.count then none
    else some ⟨s.admitted + 1, s.opened, s.count + 1⟩
  | .reject =>
    if 0 < cap ∧ cap ≤ s.count then some s else none
  | .openOk =>
    if 0 < s.admitted then some ⟨s.admitted - 1, s.opened + 1, s.count⟩
    else none
  | .openFail =>
    if 0 < s.admitted then some ⟨s.admitted - 1, s.opened, s.count - 1⟩
    else none
  | .streamDone =>
    if 0 < s.opened then some ⟨s.admitted, s.opened - 1, s.count - 1⟩
    else none

/-- State at session start: no handler or stream exists, `streamCount = 0`
(line 434). -/
def admInit : AdmState := ⟨0, 0, 0⟩

/-- Run of the admission protocol over a sequence of events; `none` when a
listed event is not enabled at its point. -/
def admRun (cap : Nat) : AdmState → List AdmEvent → Option AdmState
  | s, [] => some s
  | s, e :: es =>
    match admStep cap s e with
    | none => none
    | some s2 => admRun cap s2 es

/-! ## Copier lifecycle coupling (part_001 `handleStream` lines 237-258,
simple.go `handleConnection` lines 63-99)

Both functions spawn one copy task per direction and eventually close both
endpoints via `defer`; they differ in when the parent's deferred closes run:

  * `handleStream` blocks in `wg.Wait()` until **both** copy goroutines have
    returned (lines 242-257), and only then do `defer stream.Close()` /
    `defer userConn.Close()` fire;
  * `handleConnection` receives **one** value from `done` — the first copy
    goroutine to finish — and returns (lines 77-98), firing
    `defer remoteConn.Close()` / `defer clientConn.Close()`.

A copy direction returns either because its source ends on its own
(EOF/reset/failure, input `eofI` below) or because the endpoints were closed
under it.  Closing is modelled as one atomic event (the two deferred closes
run back to back with nothing in between). -/

/-- Which completion condition arms the parent's deferred closes. -/
inductive CopierVariant
  /-- `handleStream`: `wg.Wait()` — both directions must be done. -/
  | waitBoth
  /-- `handleConnection`: `<-done` — one direction suffices. -/
  | waitFirst
  deriving DecidableEq, Repr

/-- Copier lifecycle state: which copy goroutines have returned, and whether
the parent's deferred closes have run. -/
structure CopierState where
  done1 : Bool
  done2 : Bool
  closed : Bool
  deriving DecidableEq, Repr

/-- Initial copier state: both directions running, endpoints open. -/
def copierInit : CopierState := ⟨false, false, false⟩

/-- Small-step transitions of the copier lifecycle.  `eof1`/`eof2` say
whether the corresponding direction's source ends on its own; a direction
whose source never ends (a stalled peer) can only return once the endpoints
are closed. -/
inductive CopierStep (v : CopierVariant) (eof1 eof2 : Bool) :
    CopierState → CopierState → Prop
  | finish1 (s : CopierState) (hrun : s.done1 = false)
      (hend : eof1 = true ∨ s.closed = true) :
      CopierStep v eof1 eof2 s ⟨true, s.done2, s.closed⟩
  | finish2 (s : CopierState) (hrun : s.done2 = false)
      (hend : eof2 = true ∨ s.closed = true) :
      CopierStep v eof1 eof2 s ⟨s.done1, true, s.closed⟩
  | close (s : CopierState) (hopen : s.closed = false)
      (hguard : match v with
        | .waitBoth => s.done1 = true ∧ s.done2 = true
        | .waitFirst => s.done1 = true ∨ s.done2 = true) :
      CopierStep v eof1 eof2 s ⟨s.done1, s.done2, true⟩

/-- Reachability in the copier lifecycle. -/
def CopierReach (v : CopierVariant) (eof1 eof2 : Bool) :
    CopierState → CopierState → Prop :=
  Relation.ReflTransGen (CopierStep v eof1 eof2)

/-- A state from which no transition is possible: every task is blocked. -/
def CopierStuck (v : CopierVariant) (eof1 eof2 : Bool) (s : CopierState) : Prop :=
  ∀ s2, ¬ CopierStep v eof1 eof2 s s2

/-! ## RSA-PKCS1-v1_5 handshake crypto

The program calls `rsa.EncryptPKCS1v15` (client.go line 104) and
`rsa.DecryptPKCS1v15` (server handshakes), external collaborators embedded
here at the level of RFC 8017 / the Go library contract: modular
exponentiation over the modulus plus the EME-PKCS1-v1_5 encryption block
`00 02 ‖ PS ‖ 00 ‖ M` with at least eight nonzero padding octets.  The random
padding drawn inside the library is an explicit argument `ps`. -/

/-- RSA key material: modulus, public exponent, private exponent.  The
private key holds both exponents; the public key is the `(n, e)` part. -/
structure RSAKey where
  n : Nat
  e : Nat
  d : Nat

/-- Modulus size in bytes (Go `rsa.PublicKey.Size()`: `(N.BitLen() + 7) / 8`). -/
def modulusLen (key : RSAKey) : Nat := (bitLen key.n + 7) / 8

/-- The EME-PKCS1-v1_5 encryption block `00 02 ‖ ps ‖ 00 ‖ msg`. -/
def emePad (ps msg : List Nat) : List Nat := 0 :: 2 :: ps ++ 0 :: msg

/-- Valid padding for a message under a `k`-byte modulus: the block fills
exactly `k` bytes, the padding has at least eight octets, all nonzero
(and all octets). -/
def ValidPS (k : Nat) (ps msg : List Nat) : Prop :=
  ps.length + msg.length + 3 = k ∧ 8 ≤ ps.length ∧ ∀ b ∈ ps, 1 ≤ b ∧ b < 256

/-- `rsa.EncryptPKCS1v15(rand, pub, msg)` with padding bytes `ps`: encode the
block, convert to an integer, raise to `e` mod `n`, write back as exactly
`modulusLen` bytes.  The ciphertext R sends is exactly this value
(client.go lines 104-116). -/
def encryptPKCS1v15 (key : RSAKey) (ps msg : List Nat) : List Nat :=
  i2osp (os2ip (emePad ps msg) ^ key.e % key.n) (modulusLen key)

/-- EME-PKCS1-v1_5 decoding of a decrypted block: require `00 02`, at least
eight nonzero padding octets, a zero separator; return the message after the
separator. -/
def unpadPKCS1v15 (em : List Nat) : Option (List Nat) :=
  match em with
  | b0 :: b1 :: rest =>
    if b0 = 0 ∧ b1 = 2 then
      if (rest.takeWhile (fun b => b ≠ 0)).length < 8 then none
      else
        match rest.drop (rest.takeWhile (fun b => b ≠ 0)).length with
        | [] => none
        | sep :: msgTail => if sep = 0 then some msgTail else none
    else none
  | _ => none

/-- `rsa.DecryptPKCS1v15(rand, priv, c)`: the Go library rejects a public
exponent below 2 or above 2^31 - 1 (`checkPub`), a modulus shorter than 11
bytes, a ciphertext whose length differs from the modulus length or whose
integer value is not below the modulus; otherwise it exponentiates by `d`
and strips the padding.  Any failure is an error (`none`). -/
def decryptPKCS1v15 (key : RSAKey) (c : List Nat) : Option (List Nat) :=
  if key.e < 2 then none
  else if 2 ^ 31 - 1 < key.e then none
  else if modulusLen key < 11 then none
  else if c.length ≠ modulusLen key then none
  else if key.n ≤ os2ip c then none
  else unpadPKCS1v15 (i2osp (os2ip c ^ key.d % key.n) (modulusLen key))

/-- A functioning RSA keypair: decrypt-then-encrypt is the identity on
residues.  Satisfied by RSA keys with `e·d ≡ 1 (mod λ(n))` for a squarefree
modulus; `rsaInv_of_prime_list` below produces such instances. -/
def RSAInv (key : RSAKey) : Prop :=
  ∀ m < key.n, m ^ (key.d * key.e) % key.n = m % key.n

/-! ## Loading the public key on R (client.go lines 42-56)

`loadPublicKey` reads the file, decodes a PEM block, requires type
`PUBLIC KEY`, parses PKIX, and then runs the **unchecked** type assertion
`pub.(*rsa.PublicKey)` (line 55).  The file read and the two parsers are
external collaborators, modelled by their results. -/

/-- What `x509.ParsePKIXPublicKey` can return on success: the key types the
Go parser supports. -/
inductive PKIXKey
  /-- an `*rsa.PublicKey` -/
  | rsa (key : RSAKey)
  /-- an `*ecdsa.PublicKey` -/
  | ecdsa
  /-- an `ed25519.PublicKey` -/
  | ed25519
  /-- an `*ecdh.PublicKey` -/
  | ecdh

/-- A decoded PEM block: its type line and the result of PKIX parsing of its
bytes. -/
structure PEMBlock where
  type : String
  parsed : Except String PKIXKey

/-- Outcome of `loadPublicKey`: an error return, a key, or a Go runtime
panic (which crashes the process; no `recover` exists in client.go). -/
inductive LoadPubResult
  | ok (key : RSAKey)
  | err (msg : String)
  | panicked

/-- `loadPublicKey` (client.go lines 42-56) over the outcome of the file
read and PEM decode: `fileRead` is `none` on a read error, otherwise the
decoded block if any. -/
def loadPublicKey (fileRead : Except String (Option PEMBlock)) : LoadPubResult :=
  match fileRead with
  | .error e => .err e                               -- os.ReadFile failed (43-46)
  | .ok none => .err "failed to decode PEM block containing public key"
  | .ok (some block) =>
    if block.type ≠ "PUBLIC KEY" then                -- line 48
      .err "failed to decode PEM block containing public key"
    else
      match block.parsed with
      | .error e => .err e                           -- lines 51-54
      | .ok (.rsa key) => .ok key                    -- line 55, assertion holds
      | .ok _ => .panicked                           -- line 55: `pub.(*rsa.PublicKey)`
                                                     -- on a non-RSA key panics

/-! ## Supervisor iteration on P (part_001 second variant, lines 326-535)

One iteration of the supervised public endpoint: load config, load the
private key, listen for and accept one tunnel connection, run the handshake,
construct the session, bind the user listeners.  Everything the environment
decides (I/O successes, delivered bytes) is an explicit input; the iteration
is a straight-line function producing an ordered event trace and an
outcome. -/

/-- Number of bytes P reads for the handshake token:
`encToken := make([]byte, 256)` with `io.ReadFull` (lines 379-380). -/
def handshakeReadLen : Nat := 256

/-- Events of one P iteration, in the order the code can emit them. -/
inductive PEvent
  | keyLoaded          -- line 353 returns without error
  | tunnelListening    -- line 361
  | tunnelAccepted     -- line 368
  | tokenRead          -- line 380 `io.ReadFull` returned 256 bytes
  | handshakeAuthed    -- line 399 "Client authenticated successfully"
  | sessionUp          -- line 404 `yamux.Server` returned a session
  | userListenersBound -- lines 413-429, at least one listener bound
  deriving DecidableEq, Repr

/-- Outcome of one P iteration. -/
inductive POutcome
  /-- `log.Fatalf`: the process exits. -/
  | fatalExit
  /-- `time.Sleep(3 * time.Second); continue`: back to the supervisor. -/
  | retry (backoffSeconds : Nat)
  /-- the iteration reached the serving phase (acceptors running). -/
  | serving
  deriving DecidableEq, Repr

/-- Environment of one P iteration: what the outside world does. -/
structure PIterEnv where
  /-- config file opens and decodes (lines 331-339; failure is `log.Fatalf`). -/
  configOk : Bool
  /-- the private key loads (line 353). -/
  keyLoadOk : Bool
  /-- `net.Listen` on `tunnelListenAddr` succeeds (line 361). -/
  listenOk : Bool
  /-- `tunnelListener.Accept()` returns a connection (line 368). -/
  acceptOk : Bool
  /-- bytes the tunnel peer sends before anything else; `io.ReadFull` fails
  (short read) when fewer than 256 arrive. -/
  tunnelInput : List Nat
  /-- `yamux.Server` succeeds (line 404). -/
  sessionOk : Bool
  /-- number of user listeners that bind successfully (lines 413-422). -/
  listenersBound : Nat
  /-- `useMux` configuration field (line 402). -/
  useMux : Bool

/-- Result of one P iteration. -/
structure PIterResult where
  trace : List PEvent
  outcome : POutcome
  /-- the tunnel transport was closed by this iteration. -/
  tunnelClosed : Bool
  /-- a multiplex Session was constructed on the tunnel transport. -/
  sessionOpened : Bool
  deriving Repr

/-- One supervised P iteration (part_001 lines 329-535), straight-line
translation.  `secret` is `cfg.SecretToken` as bytes. -/
def runPIter (key : RSAKey) (secret : List Nat) (env : PIterEnv) : PIterResult :=
  -- lines 331-340: config load; os.Open/Decode failure is log.Fatalf
  if env.configOk = false then ⟨[], .fatalExit, false, false⟩
  -- lines 352-358: private key load; failure logs and retries
  else if env.keyLoadOk = false then ⟨[], .retry 3, false, false⟩
  -- lines 360-366: tunnel listener
  else if env.listenOk = false then ⟨[.keyLoaded], .retry 3, false, false⟩
  -- lines 367-374: accept one tunnel connection
  else if env.acceptOk = false then
    ⟨[.keyLoaded, .tunnelListening], .retry 3, false, false⟩
  else
    -- lines 378-385: read exactly 256 bytes
    if env.tunnelInput.length < handshakeReadLen then
      ⟨[.keyLoaded, .tunnelListening, .tunnelAccepted], .retry 3, true, false⟩
    else
      -- lines 386-392: decrypt the 256 bytes read
      match decryptPKCS1v15 key (env.tunnelInput.take handshakeReadLen) with
      | none =>
        ⟨[.keyLoaded, .tunnelListening, .tunnelAccepted, .tokenRead],
          .retry 3, true, false⟩
      | some token =>
        -- lines 393-398: compare with cfg.SecretToken
        if token ≠ secret then
          ⟨[.keyLoaded, .tunnelListening, .tunnelAccepted, .tokenRead],
            .retry 3, true, false⟩
        else if env.useMux = true then
          -- lines 402-410: construct the yamux session
          if env.sessionOk = false then
            ⟨[.keyLoaded, .tunnelListening, .tunnelAccepted, .tokenRead,
              .handshakeAuthed], .retry 3, true, false⟩
          -- lines 412-429: bind user listeners
          else if env.listenersBound = 0 then
            ⟨[.keyLoaded, .tunnelListening, .tunnelAccepted, .tokenRead,
              .handshakeAuthed, .sessionUp], .retry 3, true, true⟩
          else
            ⟨[.keyLoaded, .tunnelListening, .tunnelAccepted, .tokenRead,
              .handshakeAuthed, .sessionUp, .userListenersBound],
              .serving, false, true⟩
        else
          -- lines 493-532: no-mux splice; no Session is constructed
          ⟨[.keyLoaded, .tunnelListening, .tunnelAccepted, .tokenRead,
            .handshakeAuthed], .serving, false, false⟩

/-- One run of the single-shot server `reverse/server/server.go` (lines
64-151): same stages, but every failure is `log.Fatalf`, and there is no
supervisor loop around it. -/
def runServerGoMain (key : RSAKey) (secret : List Nat) (env : PIterEnv) :
    PIterResult :=
  if env.configOk = false then ⟨[], .fatalExit, false, false⟩
  else if env.keyLoadOk = false then ⟨[], .fatalExit, false, false⟩    -- line 88
  else if env.listenOk = false then
    ⟨[.keyLoaded], .fatalExit, false, false⟩                           -- line 94
  else if env.acceptOk = false then
    ⟨[.keyLoaded, .tunnelListening], .fatalExit, false, false⟩         -- line 99
  else
    if env.tunnelInput.length < handshakeReadLen then
      -- line 106: log.Fatalf("Failed to read encrypted token")
      ⟨[.keyLoaded, .tunnelListening, .tunnelAccepted], .fatalExit, false, false⟩
    else
      match decryptPKCS1v15 key (env.tunnelInput.take handshakeReadLen) with
      | none =>
        -- line 110: log.Fatalf("Failed to decrypt token")
        ⟨[.keyLoaded, .tunnelListening, .tunnelAccepted, .tokenRead],
          .fatalExit, false, false⟩
      | some token =>
        if token ≠ secret then
          -- line 113: log.Fatalf("Invalid token from client")
          ⟨[.keyLoaded, .tunnelListening, .tunnelAccepted, .tokenRead],
            .fatalExit, false, false⟩
        else if env.sessionOk = false then
          ⟨[.keyLoaded, .tunnelListening, .tunnelAccepted, .tokenRead,
            .handshakeAuthed], .fatalExit, false, false⟩
        else if env.listenersBound = 0 then
          ⟨[.keyLoaded, .tunnelListening, .tunnelAccepted, .tokenRead,
            .handshakeAuthed, .sessionUp], .fatalExit, false, true⟩
        else
          ⟨[.keyLoaded, .tunnelListening, .tunnelAccepted, .tokenRead,
            .handshakeAuthed, .sessionUp, .userListenersBound],
            .serving, false, true⟩

/-- Event `a` occurs before every occurrence of event `b` in a trace. -/
def Precedes (a b : PEvent) (tr : List PEvent) : Prop :=
  ∀ l1 l2, tr = l1 ++ b :: l2 → a ∈ l1

/-- A P iteration environment that reached the handshake and failed it:
short read, decryption failure, or secret mismatch (spec §4.2 / §7). -/
def HandshakeFailed (key : RSAKey) (secret : List Nat) (env : PIterEnv) : Prop :=
  env.configOk = true ∧ env.keyLoadOk = true ∧ env.listenOk = true ∧
  env.acceptOk = true ∧
  (env.tunnelInput.length < handshakeReadLen ∨
    (handshakeReadLen ≤ env.tunnelInput.length ∧
      match decryptPKCS1v15 key (env.tunnelInput.take handshakeReadLen) with
      | none => True
      | some token => token ≠ secret))

/-! ## Concrete key material for witnesses

`bigKey` is a 2045-bit modulus (256 modulus bytes, like a 2048-bit RSA key)
built as a product of 109 distinct primes `p` with `p - 1` dividing
`lcmExp`, so that Fermat's little theorem plus the Chinese remainder theorem
prove `RSAInv` for it.  `bigC` is a PKCS#1 v1.5 encryption of the secret
`"s"` under it (padding bytes all 7). -/

def bigN : Nat := 3975256669982335376809299135392892994779092639227226911034038868882421635675652156983043286211483511471452859019239567264784840046850216263420994569658730424110539826878276438106493789132149176362449089903673089936472924851713397575925219239370788328754777258008036607612873242557671248290895622198576570196745231657807455769382216031455150477861932271030884479861134857560086531433658449156419756652525777983223939263336117399114471543745915793217829185330651112035077711763291158832251646242999929460971369764237688665031922309805564124187521501323077904925707410891759413464402956091535769148327192205195994386743

def bigE : Nat := 526549553

def bigD : Nat := 17

/-- The prime factors of `bigN`. -/
def keyPrimes : List Nat := [86113, 109201, 109297, 110881, 113023, 118801, 120121, 121441, 123553, 129169, 131041, 131561, 136621, 138139, 140401, 145601, 150151, 150697, 151201, 161461, 165601, 167441, 177101, 180181, 192193, 193051, 193201, 196561, 197341, 200201, 200929, 216217, 217351, 218401, 231841, 239201, 248401, 257401, 258337, 270271, 276277, 278209, 296011, 300301, 318781, 322921, 328901, 332641, 364321, 368369, 386401, 393121, 411841, 415801, 418601, 432433, 436801, 450451, 455401, 473617, 478171, 493351, 502321, 510049, 516673, 538201, 540541, 552553, 565111, 576577, 600601, 617761, 627901, 786241, 796951, 800801, 828829, 850081, 861121, 920921, 956341, 960961, 982801, 1029601, 1062601, 1076401, 1092961, 1108801, 1159201, 1201201, 1214401, 1255801, 1275121, 1381381, 1391041, 1435201, 1473473, 1700161, 1912681, 2185921, 2210209, 2302301, 2402401, 2511601, 2702701, 2762761, 2825551, 2833601, 2960101]

/-- Binary modular exponentiation, fuel bounding the recursion depth so the
kernel can evaluate it. -/
def powMod (m : Nat) : Nat → Nat → Nat → Nat
  | 0, _, _ => 1 % m
  | f + 1, b, e =>
    if e = 0 then 1 % m
    else if e % 2 = 1 then powMod m f (b * b % m) (e / 2) * b % m
    else powMod m f (b * b % m) (e / 2)

/-- The smooth exponent bound: `p - 1` divides `bigL` for every prime factor
`p` of `bigN`; `bigL = 2^6 * 3^3 * 5^2 * 7 * 11 * 13 * 23`. -/
def bigL : Nat := 994593600

/-- The prime factors of `bigL`, hence the only possible prime factors of
`p - 1` for the primes of `bigN`. -/
def lucasQs : List Nat := [2, 3, 5, 7, 11, 13, 23]

/-- Lucas primality certificate check for `p` with witness `a`:
`a ^ (p-1) ≡ 1 (mod p)` while `a ^ ((p-1)/q)` is not `1 (mod p)` for each
possible prime factor `q` of `p - 1`. -/
def lucasCheck (p a : Nat) : Bool :=
  (decide (2 < p) && decide (powMod p 31 a (p - 1) = 1)) &&
  lucasQs.all (fun q =>
    decide (¬ q ∣ p - 1) || decide (powMod p 31 a ((p - 1) / q) ≠ 1))

/-- The primes of `bigN`, each paired with a Lucas witness (a primitive
root modulo that prime). -/
def keyPrimesA : List (Nat × Nat) := [(86113, 5), (109201, 17), (109297, 5), (110881, 69), (113023, 3), (118801, 17), (120121, 29), (121441, 7), (123553, 5), (129169, 11), (131041, 17), (131561, 6), (136621, 2), (138139, 10), (140401, 11), (145601, 23), (150151, 6), (150697, 5), (151201, 17), (161461, 6), (165601, 22), (167441, 3), (177101, 2), (180181, 6), (192193, 5), (193051, 2), (193201, 11), (196561, 11), (197341, 2), (200201, 3), (200929, 17), (216217, 15), (217351, 7), (218401, 22), (231841, 19), (239201, 3), (248401, 7), (257401, 29), (258337, 5), (270271, 7), (276277, 2), (278209, 22), (296011, 2), (300301, 2), (318781, 10), (322921, 17), (328901, 2), (332641, 19), (364321, 7), (368369, 3), (386401, 13), (393121, 23), (411841, 7), (415801, 31), (418601, 3), (432433, 5), (436801, 11), (450451, 2), (455401, 13), (473617, 10), (478171, 3), (493351, 6), (502321, 17), (510049, 13), (516673, 7), (538201, 7), (540541, 14), (552553, 5), (565111, 14), (576577, 10), (600601, 37), (617761, 19), (627901, 2), (786241, 53), (796951, 3), (800801, 3), (828829, 2), (850081, 31), (861121, 11), (920921, 3), (956341, 6), (960961, 23), (982801, 17), (1029601, 7), (1062601, 26), (1076401, 11), (1092961, 37), (1108801, 19), (1159201, 11), (1201201, 31), (1214401, 7), (1255801, 11), (1275121, 19), (1381381, 2), (1391041, 26), (1435201, 17), (1473473, 6), (1700161, 41), (1912681, 17), (2185921, 7), (2210209, 17), (2302301, 10), (2402401, 19), (2511601, 19), (2702701, 6), (2762761, 17), (2825551, 3), (2833601, 3), (2960101, 2)]

/-- A 256-byte PKCS#1 v1.5 ciphertext of the byte string "s" under
`(bigN, bigE)`, with padding `PS` of 252 bytes of value 7. -/
def bigC : Nat := 1863138059256817146848501275069269064132830989963602903776876736640522751950943097172581836223934303179624261058191199639311598203146635163175072176137443873045814265224693170740552053486505106366184409644076493412080663118042232516789118289652057572257084980041124873838360961216976369312231325780357876995247240168731333668361516381820977635257162635169872156205374145321531762072576003427727687231753199608969357131077180498833277290033514583886103273324480547720814359956142655198118069248310757010810462125965181867478261895060149245152991109251319203009201899678046203404488696454631429118525679849608620392114

/-- The witness keypair.  `bigE * bigD = 8951342401` and for every prime `p` of
`bigN`, `(bigE * bigD) % (p - 1) = 1`. -/
def bigKey : RSAKey := ⟨bigN, bigE, bigD⟩

/-- The shared secret "s" as bytes (`[]byte(cfg.SecretToken)`). -/
def secretS : List Nat := [115]

/-- Witness environment: everything succeeds and the peer sends exactly the
ciphertext `bigC`. -/
def envGood : PIterEnv :=
  ⟨true, true, true, true, i2osp bigC 256, true, 1, true⟩

/-- Environment whose peer sends nothing: the handshake read is short. -/
def envShortRead : PIterEnv :=
  ⟨true, true, true, true, [], true, 1, true⟩

/-- A 12-byte (92-bit) squarefree modulus built like `bigN` from five primes
`p` with `p - 1` dividing `bigL`, so that the same exponent pair
`(bigE, bigD)` is a functioning keypair for it.  Such a multi-prime RSA key
passes the Go library's `Validate` and is loadable by `loadPrivateKey` like
any other RSA PEM key. -/
def smallN : Nat := 3390636598818786942556149767

/-- The prime factors of `smallN` with their Lucas witnesses. -/
def keyPrimesSmallA : List (Nat × Nat) :=
  [(123553, 5), (145601, 23), (217351, 7), (510049, 13), (1700161, 41)]

/-- A functioning keypair whose modulus is 12 bytes long. -/
def smallKey : RSAKey := ⟨smallN, bigE, bigD⟩

/-- A PEM file whose block has type `PUBLIC KEY` and parses as a valid
ECDSA SubjectPublicKeyInfo — legitimate input per the spec's key-format
table, but not RSA. -/
def ecdsaPEMInput : Except String (Option PEMBlock) :=
  .ok (some ⟨"PUBLIC KEY", .ok .ecdsa⟩)

/-- Scan deciding `Precedes a b`: the first occurrence of `a` or `b` in the
trace settles it (`a` first or absent: every later `b` is preceded; `b`
first: that occurrence is unpreceded). -/
def precedesB (a b : PEvent) : List PEvent → Bool
  | [] => true
  | x :: xs => if x = a then true else if x = b then false else precedesB a b xs

/-! # Theorems -/

/-! ## Copier byte fidelity -/

theorem copyBuffer_eq_append (dst src : List Nat) : copyBuffer dst src = dst ++ src := by
  rw [copyBuffer]
  by_cases h : src = []
  · simp [h]
  · simp only [h, dite_false]
    rw [copyBuffer_eq_append (dst ++ src.take bufferPoolSize) (src.drop bufferPoolSize)]
    rw [List.append_assoc, List.take_append_drop]
termination_by src.length
decreasing_by
  simp only [List.length_drop]
  have hs : 0 < src.length := List.length_pos.mpr h
  have hb : 0 < bufferPoolSize := by norm_num [bufferPoolSize]
  omega

/-- C6: for every user connection successfully paired with a stream, each
direction of the bidirectional copier forwards the payload bytes unchanged
and unreordered, so the byte sequence the local target reads equals the byte
sequence the user sent, and vice versa: the tunnel is a transparent relay at
the application layer. -/
theorem C6_byte_fidelity (userSent localSent : List Nat) :
    relayUserToLocal userSent = userSent ∧
    relayLocalToUser localSent = localSent := by
  constructor <;>
    simp [relayUserToLocal, relayLocalToUser, ioCopy, copyBuffer_eq_append]

/-! ## Round-robin distribution on R -/

theorem rrIndices_eq_map (k : Nat) (hk : 0 < k) :
    ∀ (m idx : Nat), idx < k →
      rrIndices k m idx = (List.range m).map (fun j => (idx + j) % k) := by
  intro m
  induction m with
  | zero => intro idx _; simp [rrIndices]
  | succ m ih =>
    intro idx hidx
    rw [rrIndices, List.range_succ_eq_map, List.map_cons, List.map_map]
    rw [ih ((idx + 1) % k) (Nat.mod_lt _ hk)]
    congr 1
    · simpa using (Nat.mod_eq_of_lt hidx).symm
    · apply List.map_congr_left
      intro j _
      simp only [Function.comp_apply]
      rw [Nat.mod_add_mod]
      congr 1
      omega

theorem ceil_div_step (k i m : Nat) (hk : 0 < k) (hi : i < k) :
    (m + 1 - i + k - 1) / k =
      (m - i + k - 1) / k + if m % k = i then 1 else 0 := by
  rcases Nat.lt_or_ge m i with hmi | hmi
  · have h3 : m % k = m := Nat.mod_eq_of_lt (lt_trans hmi hi)
    have hne : ¬ (m % k = i) := by rw [h3]; omega
    rw [if_neg hne]
    have h1 : m + 1 - i + k - 1 = k - 1 := by omega
    have h2 : m - i + k - 1 = k - 1 := by omega
    rw [h1, h2]; omega
  · obtain ⟨t, rfl⟩ : ∃ t, m = i + t := ⟨m - i, by omega⟩
    obtain ⟨q, r, hr, ht⟩ : ∃ q r, r < k ∧ t = k * q + r :=
      ⟨t / k, t % k, Nat.mod_lt _ hk, (Nat.div_add_mod t k).symm⟩
    subst ht
    have hL : i + (k * q + r) + 1 - i + k - 1 = r + (q + 1) * k := by ring_nf; omega
    have hR : i + (k * q + r) - i + k - 1 = r + k - 1 + q * k := by ring_nf; omega
    rw [hL, hR, Nat.add_mul_div_right _ _ hk, Nat.add_mul_div_right _ _ hk,
      Nat.div_eq_of_lt hr]
    have hmod : (i + (k * q + r)) % k = (i + r) % k := by
      rw [show i + (k * q + r) = i + r + q * k by ring, Nat.add_mul_mod_self_right]
    rcases Nat.eq_zero_or_pos r with hr0 | hr1
    · subst hr0
      have hcond : (i + (k * q + 0)) % k = i := by
        rw [hmod]; simpa using Nat.mod_eq_of_lt hi
      rw [if_pos hcond]
      have : (0 : Nat) + k - 1 = k - 1 := by omega
      rw [this, Nat.div_eq_of_lt (by omega : k - 1 < k)]
      omega
    · have hcond : ¬ ((i + (k * q + r)) % k = i) := by
        rw [hmod]
        rcases Nat.lt_or_ge (i + r) k with hik | hik
        · rw [Nat.mod_eq_of_lt hik]; omega
        · rw [Nat.mod_eq_sub_mod hik, Nat.mod_eq_of_lt (by omega : i + r - k < k)]
          omega
      rw [if_neg hcond]
      have : r + k - 1 = r - 1 + 1 * k := by omega
      rw [this, Nat.add_mul_div_right _ _ hk, Nat.div_eq_of_lt (by omega : r - 1 < k)]
      omega

theorem count_range_mod (k i : Nat) (hk : 0 < k) (hi : i < k) :
    ∀ m : Nat, ((List.range m).map (fun j => j % k)).count i = (m - i + k - 1) / k := by
  intro m
  induction m with
  | zero =>
    simp only [List.range_zero, List.map_nil, List.count_nil]
    rw [Nat.div_eq_of_lt (by omega : 0 - i + k - 1 < k)]
  | succ m ih =>
    rw [List.range_succ, List.map_append, List.count_append, ih,
      ceil_div_step k i m hk hi]
    congr 1
    simp only [List.map_cons, List.map_nil, List.count_cons, List.count_nil,
      Nat.zero_add, beq_iff_eq]

/-- C4: on R the local target for each accepted stream is selected by a
monotonic index taken modulo the length of the configured list, advancing by
one per stream; hence for `k` local targets and a burst of `m` streams
accepted strictly sequentially, target `i` is dialed `⌈(m - i) / k⌉` times
(written `(m - i + k - 1) / k` over the naturals), giving the distribution
3, 2, 2 for 7 streams over 3 targets. -/
theorem C4_round_robin_distribution (k m i : Nat) (hk : 0 < k) (hi : i < k) :
    rrIndices k m 0 = (List.range m).map (fun j => j % k) ∧
    (rrIndices k m 0).count i = (m - i + k - 1) / k := by
  have hmap : rrIndices k m 0 = (List.range m).map (fun j => j % k) := by
    rw [rrIndices_eq_map k hk m 0 hk]
    apply List.map_congr_left
    intro j _
    rw [Nat.zero_add]
  exact ⟨hmap, by rw [hmap, count_range_mod k i hk hi]⟩

/-- Witness for C4 at the spec's own example: 7 streams over 3 targets dial
targets 0, 1, 2 respectively 3, 2 and 2 times. -/
theorem C4_round_robin_distribution_witness :
    (rrIndices 3 7 0).count 0 = (7 - 0 + 3 - 1) / 3 ∧
    (rrIndices 3 7 0).count 0 = 3 ∧ (rrIndices 3 7 0).count 1 = 2 ∧
    (rrIndices 3 7 0).count 2 = 2 :=
  ⟨(C4_round_robin_distribution 3 7 0 (by decide) (by decide)).2,
    by decide, by decide, by decide⟩

/-! ## No-mux round-robin across iterations (C9) -/

theorem noMuxDialTrace_replicate (addrs : List String) (h : addrs ≠ []) :
    ∀ n : Nat, (noMuxDialTrace addrs n).1 = List.replicate n (some 0) := by
  have hiter : ∀ s : NoMuxLoopState, (noMuxIter addrs s).1 = some 0 := by
    intro s
    obtain ⟨a, tl, rfl⟩ := List.exists_cons_of_ne_nil h
    simp [noMuxIter, selectTarget]
  intro n
  induction n with
  | zero => simp [noMuxDialTrace]
  | succ n ih =>
    rw [noMuxDialTrace]
    simp only [ih, hiter]
    rw [List.replicate_succ']

/-- C9 counterexample: with two configured local addresses, no-mux supervisor
iteration number 1 (the second tunnel session) dials entry 0 again, not
entry 1 as the claimed advancing index would require. -/
theorem C9_counterexample :
    noMuxDialedIdx ["127.0.0.1:9001", "127.0.0.1:9002"] 1 = some 0 ∧
    (some 0 : Option Nat) ≠ some 1 := by
  constructor
  · rfl
  · decide

/-- C9 amended: in no-mux mode on R, the round-robin index is a variable
local to the supervisor iteration, re-initialised to 0 each time; hence
every tunnel session dials the first entry of `localListenAddr`, and the
remaining entries are never dialed. -/
theorem C9_no_mux_always_dials_first (addrs : List String) (n : Nat)
    (h : addrs ≠ []) : noMuxDialedIdx addrs n = some 0 := by
  rw [noMuxDialedIdx, noMuxDialTrace_replicate addrs h (n + 1)]
  rw [List.getD_eq_getElem?_getD]
  rw [List.getElem?_replicate_of_lt (by omega)]
  rfl

/-- Witness for C9 amended: the sixth iteration over two addresses still
dials entry 0. -/
theorem C9_no_mux_always_dials_first_witness :
    noMuxDialedIdx ["127.0.0.1:9001", "127.0.0.1:9002"] 5 = some 0 :=
  C9_no_mux_always_dials_first _ 5 (by decide)

/-! ## Totality of target selection (C10) -/

/-- C10: R's per-stream target selection is total only when the configured
`localListenAddr` list is non-empty.  On the empty list the selection panics
(index out of range on `cfg.LocalListenAddr[localIdx]`, with the modulo by
the zero list length right behind it), both for the first accepted stream
and for the first no-mux iteration; on a non-empty list every in-range index
selects successfully and keeps the round-robin index in range. -/
theorem C10_selection_total_iff_nonempty (addrs : List String) (idx : Nat) :
    (addrs = [] →
      selectTarget addrs idx = none ∧ noMuxIter addrs () = (none, ())) ∧
    (addrs ≠ [] → ∀ i < addrs.length,
      ∃ a j, selectTarget addrs i = some (a, j) ∧ j < addrs.length) := by
  constructor
  · rintro rfl
    exact ⟨rfl, rfl⟩
  · intro hne i hi
    obtain ⟨a, ha⟩ : ∃ a, addrs[i]? = some a :=
      ⟨addrs[i], List.getElem?_eq_getElem hi⟩
    refine ⟨a, (i + 1) % addrs.length, ?_, ?_⟩
    · simp [selectTarget, List.get?_eq_getElem?, ha]
    · exact Nat.mod_lt _ (List.length_pos.mpr hne)

/-- Witness for C10: the empty list panics at index 0; a singleton list
selects its entry at index 0 and stays in range. -/
theorem C10_selection_total_iff_nonempty_witness :
    (selectTarget [] 0 = none ∧ noMuxIter [] () = (none, ())) ∧
    (∃ a j, selectTarget ["127.0.0.1:9000"] 0 = some (a, j) ∧ j < 1) :=
  ⟨(C10_selection_total_iff_nonempty [] 0).1 rfl,
    (C10_selection_total_iff_nonempty ["127.0.0.1:9000"] 0).2 (by decide) 0
      (by decide)⟩

/-! ## Concurrency cap (C3) -/

theorem admRun_invariant (cap : Nat) :
    ∀ (evs : List AdmEvent) (s0 s : AdmState),
      s0.count = s0.admitted + s0.opened → (0 < cap → s0.count ≤ cap) →
      admRun cap s0 evs = some s →
      s.count = s.admitted + s.opened ∧ (0 < cap → s.count ≤ cap) := by
  intro evs
  induction evs with
  | nil =>
    intro s0 s h1 h2 hrun
    cases hrun
    exact ⟨h1, h2⟩
  | cons e es ih =>
    intro s0 s h1 h2 hrun
    rw [admRun] at hrun
    rcases hstep : admStep cap s0 e with _ | s1
    · rw [hstep] at hrun; cases hrun
    · rw [hstep] at hrun
      apply ih s1 s _ _ hrun
      all_goals
        cases e <;> simp only [admStep] at hstep <;> split_ifs at hstep <;>
          cases hstep <;> simp_all <;> omega

/-- C3: whenever `maxConcurrentConnections = cap > 0`, the live-stream count
of a Session never exceeds `cap`: each accepted user connection on P first
consults the mutex-guarded counter and is closed immediately without opening
a stream when the counter has reached `cap`; otherwise the counter is
incremented, and it is decremented when the copier for that stream
completes.  In every reachable admission state the number of open streams is
bounded by the counter, which is bounded by `cap`. -/
theorem C3_concurrency_cap (cap : Nat) (evs : List AdmEvent) (s : AdmState)
    (hcap : 0 < cap) (hrun : admRun cap admInit evs = some s) :
    s.opened ≤ cap ∧ s.count ≤ cap := by
  have h := admRun_invariant cap evs admInit s (by simp [admInit])
    (fun _ => by simp [admInit]) hrun
  exact ⟨le_trans (by omega) (h.2 hcap), h.2 hcap⟩

/-- Witness for C3: with cap 2, two admitted streams, a rejected third
connection and one completion leave one open stream and counter 1, both
within the cap. -/
theorem C3_concurrency_cap_witness :
    admRun 2 admInit
        [.enter, .openOk, .enter, .openOk, .reject, .streamDone] =
      some ⟨0, 1, 1⟩ ∧
    (0 : Nat) + 1 ≤ 2 ∧ (1 : Nat) ≤ 2 := by
  refine ⟨by decide, ?_⟩
  have h := C3_concurrency_cap 2
    [.enter, .openOk, .enter, .openOk, .reject, .streamDone] ⟨0, 1, 1⟩
    (by decide) (by decide)
  exact ⟨by omega, h.2⟩

/-! ## Copier lifecycle coupling (C5) -/

theorem waitBoth_no_close_invariant :
    ∀ s, CopierReach .waitBoth true false copierInit s →
      s.done2 = false ∧ s.closed = false := by
  intro s hreach
  induction hreach with
  | refl => exact ⟨rfl, rfl⟩
  | tail _ hstep ih =>
    cases hstep with
    | finish1 hrun hend => exact ih
    | finish2 hrun hend =>
      rcases hend with h | h
      · cases h
      · rw [ih.2] at h; cases h
    | close hopen hguard =>
      rw [ih.1] at hguard
      cases hguard.2

/-- C5 counterexample: in `handleStream` (part_001 lines 237-258) the parent
waits on both copy goroutines before its deferred closes run.  With the
user-to-stream direction finished (its source hit EOF) and the
stream-to-user direction stalled, the finished state is reached, yet no
reachable state ever has the endpoints closed — the first direction to
finish does not cause the streams to close, and the stalled direction is
never unblocked. -/
theorem C5_counterexample :
    CopierReach .waitBoth true false copierInit ⟨true, false, false⟩ ∧
    ∀ s, CopierReach .waitBoth true false copierInit s → s.closed = false := by
  constructor
  · exact Relation.ReflTransGen.single
      (CopierStep.finish1 copierInit rfl (Or.inl rfl))
  · intro s h
    exact (waitBoth_no_close_invariant s h).2

/-- C5 amended: the lifecycle coupling holds for `handleConnection`
(simple.go lines 63-99): whenever nothing can progress any more, both copy
directions have returned and both endpoints are closed — the first direction
to finish triggers the deferred closes, which unblock the other direction,
so the copier never halts half-open.  In `handleStream` (part_001 lines
237-258) the deferred closes run only after both directions have completed:
every reachable closed state has both directions done, and a direction that
stalls after the other finishes is not unblocked (see the counterexample). -/
theorem C5_copier_close_coupling (eof2 : Bool) :
    (∀ s, CopierStuck .waitFirst true eof2 s →
      s.done1 = true ∧ s.done2 = true ∧ s.closed = true) ∧
    (∀ e1 e2 : Bool, ∀ s, CopierReach .waitBoth e1 e2 copierInit s →
      s.closed = true → s.done1 = true ∧ s.done2 = true) := by
  constructor
  · intro s hstuck
    have hd1 : s.done1 = true := by
      by_contra h
      exact hstuck _ (CopierStep.finish1 s (by simpa using h) (Or.inl rfl))
    have hcl : s.closed = true := by
      by_contra h
      exact hstuck _
        (CopierStep.close s (by simpa using h) (Or.inl hd1))
    have hd2 : s.done2 = true := by
      by_contra h
      exact hstuck _ (CopierStep.finish2 s (by simpa using h) (Or.inr hcl))
    exact ⟨hd1, hd2, hcl⟩
  · intro e1 e2 s hreach
    induction hreach with
    | refl => intro h; cases h
    | tail _ hstep ih =>
      cases hstep with
      | finish1 hrun hend =>
        intro hcl
        exact ⟨rfl, (ih hcl).2⟩
      | finish2 hrun hend =>
        intro hcl
        exact ⟨(ih hcl).1, rfl⟩
      | close hopen hguard =>
        intro _
        exact ⟨hguard.1, hguard.2⟩

/-- Witness for C5 amended: the fully-terminated state is stuck for
`handleConnection`, and for `handleStream` the closed state reached after
both directions finish indeed has both directions done. -/
theorem C5_copier_close_coupling_witness :
    ((⟨true, true, true⟩ : CopierState).done1 = true ∧
      (⟨true, true, true⟩ : CopierState).done2 = true ∧
      (⟨true, true, true⟩ : CopierState).closed = true) ∧
    ((⟨true, true, true⟩ : CopierState).done1 = true ∧
      (⟨true, true, true⟩ : CopierState).done2 = true) := by
  constructor
  · apply (C5_copier_close_coupling false).1 ⟨true, true, true⟩
    intro s2 hstep
    cases hstep with
    | finish1 hrun hend => cases hrun
    | finish2 hrun hend => cases hrun
    | close hopen hguard => cases hopen
  · apply (C5_copier_close_coupling false).2 true true ⟨true, true, true⟩ _ rfl
    have h1 : CopierStep .waitBoth true true copierInit ⟨true, false, false⟩ :=
      CopierStep.finish1 copierInit rfl (Or.inl rfl)
    have h2 : CopierStep .waitBoth true true
        (⟨true, false, false⟩ : CopierState) ⟨true, true, false⟩ :=
      CopierStep.finish2 ⟨true, false, false⟩ rfl (Or.inl rfl)
    have h3 : CopierStep .waitBoth true true
        (⟨true, true, false⟩ : CopierState) ⟨true, true, true⟩ :=
      CopierStep.close ⟨true, true, false⟩ rfl ⟨rfl, rfl⟩
    exact Relation.ReflTransGen.head h1 (Relation.ReflTransGen.head h2
      (Relation.ReflTransGen.single h3))

/-! ## Byte-string lemmas -/

theorem i2osp_length (k : Nat) : ∀ x, (i2osp x k).length = k := by
  induction k with
  | zero => intro x; rfl
  | succ k ih =>
    intro x
    rw [i2osp, List.length_append, ih]
    simp

theorem i2osp_bytes (k : Nat) : ∀ x, BytesWF (i2osp x k) := by
  induction k with
  | zero => intro x b hb; cases hb
  | succ k ih =>
    intro x b hb
    rw [i2osp] at hb
    rcases List.mem_append.mp hb with h | h
    · exact ih _ b h
    · rcases List.mem_singleton.mp h with rfl
      exact Nat.mod_lt _ (by norm_num)

theorem os2ip_append_singleton (l : List Nat) (b : Nat) :
    os2ip (l ++ [b]) = os2ip l * 256 + b := by
  rw [os2ip, os2ip, List.foldl_append]
  rfl

theorem os2ip_i2osp (k : Nat) : ∀ x, x < 256 ^ k → os2ip (i2osp x k) = x := by
  induction k with
  | zero =>
    intro x hx
    interval_cases x
    rfl
  | succ k ih =>
    intro x hx
    rw [i2osp, os2ip_append_singleton, ih (x / 256) ?_]
    · rw [Nat.mul_comm]
      exact Nat.div_add_mod x 256
    · rw [Nat.div_lt_iff_lt_mul (by norm_num)]
      calc x < 256 ^ (k + 1) := hx
        _ = 256 ^ k * 256 := by rw [pow_succ]

theorem os2ip_lt (bs : List Nat) (h : BytesWF bs) :
    os2ip bs < 256 ^ bs.length := by
  induction bs using List.reverseRecOn with
  | nil => simp [os2ip]
  | append_singleton l b ih =>
    rw [os2ip_append_singleton, List.length_append]
    have hb : b < 256 := h b (by simp)
    have hl : os2ip l < 256 ^ l.length := ih (fun x hx => h x (by simp [hx]))
    calc os2ip l * 256 + b < (os2ip l + 1) * 256 := by omega
      _ ≤ 256 ^ l.length * 256 := by
          apply Nat.mul_le_mul_right
          omega
      _ = 256 ^ (l.length + 1) := by rw [pow_succ]

theorem i2osp_os2ip (bs : List Nat) (h : BytesWF bs) :
    i2osp (os2ip bs) bs.length = bs := by
  induction bs using List.reverseRecOn with
  | nil => rfl
  | append_singleton l b ih =>
    have hb : b < 256 := h b (by simp)
    have hwl : BytesWF l := fun x hx => h x (by simp [hx])
    rw [os2ip_append_singleton, List.length_append, List.length_singleton, i2osp]
    have hdiv : (os2ip l * 256 + b) / 256 = os2ip l := by
      rw [Nat.add_comm, Nat.add_mul_div_right _ _ (by norm_num : (0:Nat) < 256),
        Nat.div_eq_of_lt hb, Nat.zero_add]
    have hmod : (os2ip l * 256 + b) % 256 = b := by
      rw [Nat.add_comm, Nat.add_mul_mod_self_right, Nat.mod_eq_of_lt hb]
    rw [hdiv, hmod, ih hwl]

set_option maxRecDepth 2000 in
theorem bitLen8_lt : ∀ n, n < 256 → n < 2 ^ bitLen8 n := by decide

theorem bitLenAux_lt (fuel : Nat) : ∀ n, n ≤ fuel → n < 2 ^ bitLenAux fuel n := by
  induction fuel with
  | zero =>
    intro n hn
    interval_cases n
    simp [bitLenAux]
  | succ f ih =>
    intro n hn
    rw [bitLenAux]
    by_cases h0 : n < 256
    · simp only [h0, if_true]
      exact bitLen8_lt n h0
    · simp only [h0, if_false]
      have hh : n / 256 ≤ f := by omega
      have h1 := ih (n / 256) hh
      have h3 : 256 * (n / 256 + 1) ≤ 256 * 2 ^ bitLenAux f (n / 256) :=
        Nat.mul_le_mul_left _ (by omega)
      have h4 : 2 ^ (bitLenAux f (n / 256) + 8) =
          256 * 2 ^ bitLenAux f (n / 256) := by
        rw [pow_add]
        ring
      omega

theorem lt_two_pow_bitLen (n : Nat) : n < 2 ^ bitLen n :=
  bitLenAux_lt n n (le_refl n)

set_option maxRecDepth 2000 in
theorem bitLen8_ge : ∀ n, n < 256 → 0 < n → 2 ^ (bitLen8 n - 1) ≤ n := by decide

set_option maxRecDepth 2000 in
theorem bitLen8_pos : ∀ n, n < 256 → 0 < n → 1 ≤ bitLen8 n := by decide

theorem bitLenAux_pos (fuel : Nat) :
    ∀ n, n ≤ fuel → 0 < n → 1 ≤ bitLenAux fuel n := by
  induction fuel with
  | zero => intro n hn h0; omega
  | succ f ih =>
    intro n hn h0
    rw [bitLenAux]
    by_cases h : n < 256
    · simp only [h, if_true]
      exact bitLen8_pos n h h0
    · simp only [h, if_false]
      omega

theorem bitLenAux_ge (fuel : Nat) :
    ∀ n, n ≤ fuel → 0 < n → 2 ^ (bitLenAux fuel n - 1) ≤ n := by
  induction fuel with
  | zero => intro n hn h0; omega
  | succ f ih =>
    intro n hn h0
    rw [bitLenAux]
    by_cases h : n < 256
    · simp only [h, if_true]
      exact bitLen8_ge n h h0
    · simp only [h, if_false]
      have hh : n / 256 ≤ f := by omega
      have h02 : 0 < n / 256 := by omega
      have h1 := ih (n / 256) hh h02
      have hb : 1 ≤ bitLenAux f (n / 256) := bitLenAux_pos f (n / 256) hh h02
      have hsplit : bitLenAux f (n / 256) + 8 - 1 =
          bitLenAux f (n / 256) - 1 + 8 := by omega
      rw [hsplit, pow_add]
      have h3 : 2 ^ (bitLenAux f (n / 256) - 1) * 2 ^ 8 ≤ n / 256 * 2 ^ 8 :=
        Nat.mul_le_mul_right _ h1
      have h4 : n / 256 * 2 ^ 8 ≤ n := by
        have h5 := Nat.div_mul_le_self n 256
        norm_num
        exact h5
      omega

/-- Together with `lt_two_pow_bitLen` this pins `bitLen` to exactly the
binary length Go's `big.Int.BitLen` computes. -/
theorem two_pow_bitLen_le (n : Nat) (h : 0 < n) : 2 ^ (bitLen n - 1) ≤ n :=
  bitLenAux_ge n n (le_refl n) h

/-! ## Fermat / Chinese-remainder facts establishing `RSAInv bigKey` -/

theorem coprime_list_prod (a : Nat) :
    ∀ l : List Nat, (∀ b ∈ l, Nat.Coprime a b) → Nat.Coprime a l.prod := by
  intro l
  induction l with
  | nil => intro _; simp
  | cons b bs ih =>
    intro h
    rw [List.prod_cons]
    exact Nat.Coprime.mul_right (h b (by simp))
      (ih (fun x hx => h x (by simp [hx])))

theorem pow_modEq_self_of_prime (p E : Nat) (hp : Nat.Prime p) (hE : 1 ≤ E)
    (h1 : E % (p - 1) = 1) (m : Nat) : m ^ E ≡ m [MOD p] := by
  have hp2 := hp.two_le
  have hsplit : E = (p - 1) * (E / (p - 1)) + 1 := by
    conv_lhs => rw [← Nat.div_add_mod E (p - 1)]
    rw [h1]
  by_cases hdvd : p ∣ m
  · have h0 : m ≡ 0 [MOD p] := (Nat.modEq_zero_iff_dvd).mpr hdvd
    calc m ^ E ≡ 0 ^ E [MOD p] := h0.pow E
      _ = 0 := by rw [zero_pow (by omega : E ≠ 0)]
      _ ≡ m [MOD p] := h0.symm
  · have hco : Nat.Coprime m p :=
      ((Nat.Prime.coprime_iff_not_dvd hp).mpr hdvd).symm
    have he : m ^ (p - 1) ≡ 1 [MOD p] := by
      have h := Nat.ModEq.pow_totient hco
      rwa [Nat.totient_prime hp] at h
    calc m ^ E = (m ^ (p - 1)) ^ (E / (p - 1)) * m := by
          rw [← pow_mul, ← pow_succ, ← hsplit]
      _ ≡ 1 ^ (E / (p - 1)) * m [MOD p] :=
          Nat.ModEq.mul (he.pow _) (Nat.ModEq.refl m)
      _ = m := by rw [one_pow, one_mul]

theorem pow_modEq_self_of_prime_list (E : Nat) (hE : 1 ≤ E) :
    ∀ l : List Nat, (∀ p ∈ l, Nat.Prime p) → l.Nodup →
      (∀ p ∈ l, E % (p - 1) = 1) → ∀ m, m ^ E ≡ m [MOD l.prod] := by
  intro l
  induction l with
  | nil => intro _ _ _ m; simp [Nat.modEq_one]
  | cons p ps ih =>
    intro hp hnd h1 m
    rw [List.prod_cons]
    have hmp : m ^ E ≡ m [MOD p] :=
      pow_modEq_self_of_prime p E (hp p (by simp)) hE (h1 p (by simp)) m
    have hmr : m ^ E ≡ m [MOD ps.prod] :=
      ih (fun q hq => hp q (by simp [hq])) (List.Nodup.of_cons hnd)
        (fun q hq => h1 q (by simp [hq])) m
    have hco : Nat.Coprime p ps.prod := by
      apply coprime_list_prod
      intro q hq
      have hne : p ≠ q := by
        intro hpq
        subst hpq
        exact (List.nodup_cons.mp hnd).1 hq
      exact (Nat.coprime_primes (hp p (by simp)) (hp q (by simp [hq]))).mpr hne
    exact (Nat.modEq_and_modEq_iff_modEq_mul hco).mp ⟨hmp, hmr⟩

theorem powMod_eq (m : Nat) (hm : 0 < m) :
    ∀ f b e, e < 2 ^ f → powMod m f b e = b ^ e % m := by
  intro f
  induction f with
  | zero =>
    intro b e he
    interval_cases e
    simp [powMod]
  | succ f ih =>
    intro b e he
    rw [powMod]
    by_cases h0 : e = 0
    · simp [h0]
    · have he2 : e / 2 < 2 ^ f := by
        have hp : 2 ^ (f + 1) = 2 * 2 ^ f := by rw [pow_succ]; ring
        omega
      have hrec := ih (b * b % m) (e / 2) he2
      have hbb : (b * b % m) ^ (e / 2) % m = (b * b) ^ (e / 2) % m := by
        rw [← Nat.pow_mod]
      have hpow : (b * b) ^ (e / 2) = b ^ (2 * (e / 2)) := by
        rw [← pow_two, ← pow_mul]
      by_cases hodd : e % 2 = 1
      · simp only [h0, if_false, hodd, if_true]
        rw [hrec, hbb, hpow, Nat.mod_mul_mod, ← pow_succ]
        have hee : 2 * (e / 2) + 1 = e := by omega
        rw [hee]
      · simp only [h0, if_false, hodd, if_false]
        rw [hrec, hbb, hpow]
        have hee : 2 * (e / 2) = e := by omega
        rw [hee]

theorem prime_dvd_bigL (q : Nat) (hq : Nat.Prime q) (hdvd : q ∣ bigL) :
    q ∈ lucasQs := by
  have hfac : bigL = 2 ^ 6 * (3 ^ 3 * (5 ^ 2 * (7 * (11 * (13 * 23))))) := by
    norm_num [bigL]
  rw [hfac] at hdvd
  simp only [lucasQs, List.mem_cons, List.not_mem_nil, or_false]
  rcases (Nat.Prime.dvd_mul hq).mp hdvd with h | h
  · exact Or.inl ((Nat.prime_dvd_prime_iff_eq hq Nat.prime_two).mp
      (hq.dvd_of_dvd_pow h))
  rcases (Nat.Prime.dvd_mul hq).mp h with h | h
  · exact Or.inr (Or.inl ((Nat.prime_dvd_prime_iff_eq hq Nat.prime_three).mp
      (hq.dvd_of_dvd_pow h)))
  rcases (Nat.Prime.dvd_mul hq).mp h with h | h
  · exact Or.inr (Or.inr (Or.inl ((Nat.prime_dvd_prime_iff_eq hq
      (by norm_num)).mp (hq.dvd_of_dvd_pow h))))
  rcases (Nat.Prime.dvd_mul hq).mp h with h | h
  · exact Or.inr (Or.inr (Or.inr (Or.inl ((Nat.prime_dvd_prime_iff_eq hq
      (by norm_num)).mp h))))
  rcases (Nat.Prime.dvd_mul hq).mp h with h | h
  · exact Or.inr (Or.inr (Or.inr (Or.inr (Or.inl ((Nat.prime_dvd_prime_iff_eq hq
      (by norm_num)).mp h)))))
  rcases (Nat.Prime.dvd_mul hq).mp h with h | h
  · exact Or.inr (Or.inr (Or.inr (Or.inr (Or.inr (Or.inl
      ((Nat.prime_dvd_prime_iff_eq hq (by norm_num)).mp h))))))
  · exact Or.inr (Or.inr (Or.inr (Or.inr (Or.inr (Or.inr
      ((Nat.prime_dvd_prime_iff_eq hq (by norm_num)).mp h))))))

theorem prime_of_lucasCheck (p a : Nat) (hL : bigL % (p - 1) = 0)
    (hchk : lucasCheck p a = true) : Nat.Prime p := by
  rw [lucasCheck] at hchk
  rcases Bool.and_eq_true_iff.mp hchk with ⟨h1, hall⟩
  rcases Bool.and_eq_true_iff.mp h1 with ⟨hp2b, hpowb⟩
  have hp2 : 2 < p := of_decide_eq_true hp2b
  have hp0 : 0 < p := by omega
  have hdvd : p - 1 ∣ bigL := Nat.dvd_of_mod_eq_zero hL
  have hple : p - 1 ≤ bigL := Nat.le_of_dvd (by norm_num [bigL]) hdvd
  have hlt31 : p - 1 < 2 ^ 31 := by
    have : bigL < 2 ^ 31 := by norm_num [bigL]
    omega
  have hpow : a ^ (p - 1) % p = 1 := by
    have := of_decide_eq_true hpowb
    rwa [powMod_eq p hp0 31 a (p - 1) hlt31] at this
  apply lucas_primality p (a : ZMod p)
  · calc (a : ZMod p) ^ (p - 1) = ((a ^ (p - 1) : ℕ) : ZMod p) := by
          rw [Nat.cast_pow]
      _ = ((a ^ (p - 1) % p : ℕ) : ZMod p) := (ZMod.natCast_mod _ p).symm
      _ = ((1 : ℕ) : ZMod p) := by rw [hpow]
      _ = 1 := Nat.cast_one
  · intro q hq hqd heq
    have hqL : q ∣ bigL := dvd_trans hqd hdvd
    have hqmem : q ∈ lucasQs := prime_dvd_bigL q hq hqL
    have hq2 := List.all_eq_true.mp hall q hqmem
    rcases Bool.or_eq_true_iff.mp hq2 with hnd | hne
    · exact (of_decide_eq_true hnd) hqd
    · have hne2 : powMod p 31 a ((p - 1) / q) ≠ 1 := of_decide_eq_true hne
      have hqle : (p - 1) / q ≤ p - 1 := Nat.div_le_self _ _
      rw [powMod_eq p hp0 31 a ((p - 1) / q) (by omega)] at hne2
      apply hne2
      have hcast : ((a ^ ((p - 1) / q) % p : ℕ) : ZMod p) = ((1 : ℕ) : ZMod p) := by
        rw [ZMod.natCast_mod, Nat.cast_pow, Nat.cast_one]
        exact heq
      have hmodeq : a ^ ((p - 1) / q) % p ≡ 1 [MOD p] :=
        (ZMod.natCast_eq_natCast_iff _ _ _).mp hcast
      have hlt : a ^ ((p - 1) / q) % p < p := Nat.mod_lt _ hp0
      have h1p : (1 : Nat) % p = 1 := Nat.mod_eq_of_lt (by omega)
      have h3 : a ^ ((p - 1) / q) % p % p = 1 % p := hmodeq
      rwa [Nat.mod_eq_of_lt hlt, h1p] at h3

set_option maxHeartbeats 1000000 in
theorem keyPrimesA_fst : keyPrimesA.map Prod.fst = keyPrimes := by decide

set_option maxHeartbeats 1000000 in
theorem keyPrimesA_check : ∀ pa ∈ keyPrimesA,
    bigL % (pa.1 - 1) = 0 ∧ lucasCheck pa.1 pa.2 = true := by decide

theorem keyPrimes_prime : ∀ p ∈ keyPrimes, Nat.Prime p := by
  intro p hp
  rw [← keyPrimesA_fst] at hp
  obtain ⟨pa, hpa, rfl⟩ := List.mem_map.mp hp
  obtain ⟨hL, hchk⟩ := keyPrimesA_check pa hpa
  exact prime_of_lucasCheck pa.1 pa.2 hL hchk

theorem keyPrimes_prod : keyPrimes.prod = bigN := by decide

theorem keyPrimes_nodup : keyPrimes.Nodup := by decide

theorem keyPrimes_exp : ∀ p ∈ keyPrimes, (bigKey.d * bigKey.e) % (p - 1) = 1 := by
  decide

theorem keyPrimesSmallA_check : ∀ pa ∈ keyPrimesSmallA,
    bigL % (pa.1 - 1) = 0 ∧ lucasCheck pa.1 pa.2 = true := by decide

theorem keyPrimesSmall_prime : ∀ pa ∈ keyPrimesSmallA, Nat.Prime pa.1 := by
  intro pa hpa
  obtain ⟨hL, hchk⟩ := keyPrimesSmallA_check pa hpa
  exact prime_of_lucasCheck pa.1 pa.2 hL hchk

theorem keyPrimesSmall_prod : (keyPrimesSmallA.map Prod.fst).prod = smallN := by
  decide

theorem keyPrimesSmall_nodup : (keyPrimesSmallA.map Prod.fst).Nodup := by decide

theorem keyPrimesSmall_exp : ∀ p ∈ keyPrimesSmallA.map Prod.fst,
    (smallKey.d * smallKey.e) % (p - 1) = 1 := by decide

theorem smallKey_rsaInv : RSAInv smallKey := by
  intro m _
  have h := pow_modEq_self_of_prime_list (smallKey.d * smallKey.e)
    (by norm_num [smallKey, bigD, bigE]) (keyPrimesSmallA.map Prod.fst)
    (fun p hp => by
      obtain ⟨pa, hpa, rfl⟩ := List.mem_map.mp hp
      exact keyPrimesSmall_prime pa hpa)
    keyPrimesSmall_nodup keyPrimesSmall_exp m
  rw [keyPrimesSmall_prod] at h
  exact h

theorem bigKey_rsaInv : RSAInv bigKey := by
  intro m _
  have h := pow_modEq_self_of_prime_list (bigKey.d * bigKey.e)
    (by norm_num [bigKey, bigD, bigE]) keyPrimes keyPrimes_prime
    keyPrimes_nodup keyPrimes_exp m
  rw [keyPrimes_prod] at h
  exact h

theorem n_lt_pow_modulusLen (key : RSAKey) : key.n < 256 ^ modulusLen key := by
  have h1 : key.n < 2 ^ bitLen key.n := lt_two_pow_bitLen key.n
  have h2 : bitLen key.n ≤ 8 * modulusLen key := by
    rw [modulusLen]
    omega
  calc key.n < 2 ^ bitLen key.n := h1
    _ ≤ 2 ^ (8 * modulusLen key) := Nat.pow_le_pow_right (by norm_num) h2
    _ = 256 ^ modulusLen key := by
        rw [pow_mul]
        norm_num

/-! ## The decrypted handshake token determines the ciphertext -/

theorem dropWhile_eq_drop_takeWhile (p : Nat → Bool) :
    ∀ l : List Nat, l.dropWhile p = l.drop (l.takeWhile p).length := by
  intro l
  induction l with
  | nil => rfl
  | cons a l ih =>
    by_cases hp : p a
    · simp [List.dropWhile_cons, List.takeWhile_cons, hp, ih]
    · simp [List.dropWhile_cons, List.takeWhile_cons, hp]

theorem unpadPKCS1v15_some (em msg : List Nat)
    (h : unpadPKCS1v15 em = some msg) :
    ∃ ps, em = emePad ps msg ∧ 8 ≤ ps.length ∧ ∀ b ∈ ps, b ≠ 0 := by
  rcases em with _ | ⟨b0, em1⟩
  · simp [unpadPKCS1v15] at h
  rcases em1 with _ | ⟨b1, rest⟩
  · simp [unpadPKCS1v15] at h
  rw [unpadPKCS1v15] at h
  split_ifs at h with hb hlen
  rcases hdrop : rest.drop (rest.takeWhile (fun b => b ≠ 0)).length with _ | ⟨sep, msgTail⟩
  · rw [hdrop] at h; cases h
  · rw [hdrop] at h
    have h2 : (if sep = 0 then some msgTail else none) = some msg := h
    split_ifs at h2 with hsep
    rcases h2 with ⟨rfl⟩
    refine ⟨rest.takeWhile (fun b => b ≠ 0), ?_, by omega, ?_⟩
    · have hsplit : rest.takeWhile (fun b => b ≠ 0) ++
          rest.drop (rest.takeWhile (fun b => b ≠ 0)).length = rest := by
        rw [← dropWhile_eq_drop_takeWhile]
        exact List.takeWhile_append_dropWhile _ _
      have hr : rest = rest.takeWhile (fun b => b ≠ 0) ++ (0 :: msg) := by
        subst hsep
        rw [← hdrop]
        exact hsplit.symm
      rw [emePad, hb.1, hb.2]
      conv_lhs => rw [hr]
      simp
    · intro b hbmem
      have := List.mem_takeWhile_imp hbmem
      simpa using this

theorem decrypt_gives_encryption (key : RSAKey) (c msg : List Nat)
    (hinv : RSAInv key) (hc : BytesWF c)
    (h : decryptPKCS1v15 key c = some msg) :
    ∃ ps, ValidPS (modulusLen key) ps msg ∧ c = encryptPKCS1v15 key ps msg := by
  rw [decryptPKCS1v15] at h
  split_ifs at h with h1 h2 h3 h4 h5
  obtain ⟨ps, hem, hps8, hps0⟩ := unpadPKCS1v15_some _ _ h
  have hklen : c.length = modulusLen key := by omega
  have hn0 : key.n ≠ 0 := by
    intro hn
    apply h3
    simp [modulusLen, bitLen, hn, bitLenAux]
  have hxd : os2ip c ^ key.d % key.n < 256 ^ modulusLen key :=
    lt_trans (Nat.mod_lt _ (Nat.pos_of_ne_zero hn0)) (n_lt_pow_modulusLen key)
  have hosem : os2ip (emePad ps msg) = os2ip c ^ key.d % key.n := by
    rw [← hem, os2ip_i2osp _ _ hxd]
  refine ⟨ps, ?_, ?_⟩
  · -- valid padding: block length, padding length, octet bounds
    have hemlen : (emePad ps msg).length = modulusLen key := by
      rw [← hem, i2osp_length]
    rw [emePad] at hemlen
    simp only [List.length_cons, List.length_append] at hemlen
    refine ⟨by omega, hps8, ?_⟩
    intro b hbmem
    refine ⟨Nat.one_le_iff_ne_zero.mpr (hps0 b hbmem), ?_⟩
    have hbem : b ∈ emePad ps msg := by
      rw [emePad]
      simp [hbmem]
    rw [← hem] at hbem
    exact i2osp_bytes _ _ b hbem
  · -- the ciphertext is exactly the encryption with this padding
    rw [encryptPKCS1v15, hosem]
    have hpow : (os2ip c ^ key.d % key.n) ^ key.e % key.n =
        os2ip c ^ (key.d * key.e) % key.n := by
      rw [← Nat.pow_mod, ← pow_mul]
    rw [hpow, hinv (os2ip c) (by omega), Nat.mod_eq_of_lt (by omega),
      ← hklen, i2osp_os2ip c hc]



/-! ## The supervised P iteration (C1, C2, C7) -/

theorem precedesB_sound (a b : PEvent) (hne : a ≠ b) :
    ∀ tr : List PEvent, precedesB a b tr = true → Precedes a b tr := by
  intro tr
  induction tr with
  | nil =>
    intro _ l1 l2 hsplit
    rcases l1 with _ | ⟨y, l1⟩ <;> simp at hsplit
  | cons x xs ih =>
    intro hB l1 l2 hsplit
    rw [precedesB] at hB
    rcases l1 with _ | ⟨y, l1⟩
    · simp only [List.nil_append, List.cons.injEq] at hsplit
      rcases hsplit with ⟨rfl, rfl⟩
      rw [if_neg (fun hxa => hne hxa.symm), if_pos rfl] at hB
      cases hB
    · simp only [List.cons_append, List.cons.injEq] at hsplit
      rcases hsplit with ⟨rfl, hxs⟩
      by_cases hxa : x = a
      · subst hxa
        exact List.mem_cons_self _ _
      · rw [if_neg hxa] at hB
        by_cases hxb : x = b
        · rw [if_pos hxb] at hB; cases hB
        · rw [if_neg hxb] at hB
          exact List.mem_cons_of_mem _ (ih hB l1 l2 hxs)

theorem runPIter_trace_mem (key : RSAKey) (secret : List Nat) (env : PIterEnv) :
    (runPIter key secret env).trace ∈
      ([[],
        [.keyLoaded],
        [.keyLoaded, .tunnelListening],
        [.keyLoaded, .tunnelListening, .tunnelAccepted],
        [.keyLoaded, .tunnelListening, .tunnelAccepted, .tokenRead],
        [.keyLoaded, .tunnelListening, .tunnelAccepted, .tokenRead,
          .handshakeAuthed],
        [.keyLoaded, .tunnelListening, .tunnelAccepted, .tokenRead,
          .handshakeAuthed, .sessionUp],
        [.keyLoaded, .tunnelListening, .tunnelAccepted, .tokenRead,
          .handshakeAuthed, .sessionUp, .userListenersBound]] :
        List (List PEvent)) := by
  rw [runPIter]
  split_ifs <;> try simp
  all_goals (split <;> (try split_ifs) <;> simp)

theorem runPIter_precedes (key : RSAKey) (secret : List Nat) (env : PIterEnv) :
    Precedes .handshakeAuthed .sessionUp (runPIter key secret env).trace ∧
    Precedes .handshakeAuthed .userListenersBound (runPIter key secret env).trace := by
  have h := runPIter_trace_mem key secret env
  simp only [List.mem_cons, List.not_mem_nil, or_false] at h
  rcases h with h|h|h|h|h|h|h|h <;> rw [h] <;>
    exact ⟨precedesB_sound _ _ (by decide) _ (by decide),
      precedesB_sound _ _ (by decide) _ (by decide)⟩

theorem runPIter_sessionOpened_handshake (key : RSAKey) (secret : List Nat)
    (env : PIterEnv) (h : (runPIter key secret env).sessionOpened = true) :
    handshakeReadLen ≤ env.tunnelInput.length ∧
    decryptPKCS1v15 key (env.tunnelInput.take handshakeReadLen) = some secret := by
  rw [runPIter] at h
  split_ifs at h <;> try exact absurd h (by decide)
  all_goals split at h <;> try exact absurd h (by decide)
  all_goals split_ifs at h <;> try exact absurd h (by decide)
  all_goals exact ⟨by omega, by simp_all⟩

/-- C1: for every supervisor iteration on the Public Endpoint, a Session is
constructed only after the handshake succeeds — P reads the 256-byte token,
decrypts it with the private key and compares the plaintext byte-for-byte
with the configured shared secret — so (for a functioning keypair) a peer
that does not produce `RSAES-PKCS1-v1_5(pub, secret)` cannot cause P to open
any Session: whenever the Session is constructed, the bytes read are exactly
a PKCS#1 v1.5 encryption of the secret under the keypair.  No stream is
opened or accepted before the handshake completes: in every iteration trace,
the session construction and the binding of the user listeners that accept
the user connections paired with streams are strictly preceded by handshake
success. -/
theorem C1_session_only_after_handshake (key : RSAKey) (secret : List Nat)
    (env : PIterEnv) (hinv : RSAInv key) (hwf : BytesWF env.tunnelInput) :
    ((runPIter key secret env).sessionOpened = true →
      (env.tunnelInput.take handshakeReadLen).length = handshakeReadLen ∧
      decryptPKCS1v15 key (env.tunnelInput.take handshakeReadLen) =
        some secret ∧
      ∃ ps, ValidPS (modulusLen key) ps secret ∧
        env.tunnelInput.take handshakeReadLen =
          encryptPKCS1v15 key ps secret) ∧
    Precedes .handshakeAuthed .sessionUp (runPIter key secret env).trace ∧
    Precedes .handshakeAuthed .userListenersBound
      (runPIter key secret env).trace := by
  refine ⟨?_, (runPIter_precedes key secret env).1,
    (runPIter_precedes key secret env).2⟩
  intro hopen
  obtain ⟨hlen, hdec⟩ := runPIter_sessionOpened_handshake key secret env hopen
  have hcwf : BytesWF (env.tunnelInput.take handshakeReadLen) :=
    fun b hb => hwf b (List.take_subset _ _ hb)
  have hlen2 : (env.tunnelInput.take handshakeReadLen).length =
      handshakeReadLen := by
    rw [List.length_take]
    omega
  obtain ⟨ps, hvps, henc⟩ :=
    decrypt_gives_encryption key _ secret hinv hcwf hdec
  exact ⟨hlen2, hdec, ps, hvps, henc⟩

/-- Witness for C1: the honest peer, sending the PKCS#1 v1.5 encryption of
the shared secret "s" under the 2048-bit-scale witness keypair,
authenticates: the session opens, and the theorem certifies the received
bytes as an encryption of the secret. -/
theorem C1_session_only_after_handshake_witness :
    (runPIter bigKey secretS envGood).sessionOpened = true ∧
    ∃ ps, ValidPS (modulusLen bigKey) ps secretS ∧
      envGood.tunnelInput.take handshakeReadLen =
        encryptPKCS1v15 bigKey ps secretS := by
  have hwf : BytesWF envGood.tunnelInput := fun b hb => i2osp_bytes 256 bigC b hb
  have hopen : (runPIter bigKey secretS envGood).sessionOpened = true := by decide
  have h := (C1_session_only_after_handshake bigKey secretS envGood
    bigKey_rsaInv hwf).1 hopen
  exact ⟨hopen, h.2.2⟩

/-- C2 counterexample: the single-shot Public Endpoint
`reverse/server/server.go` exits the process on a handshake failure — a
short read makes `main` call `log.Fatalf` (line 106) instead of retrying
after a backoff. -/
theorem C2_counterexample :
    (runServerGoMain smallKey secretS envShortRead).outcome =
      POutcome.fatalExit ∧
    POutcome.fatalExit ≠ POutcome.retry 3 := by
  exact ⟨rfl, by decide⟩

/-- C2 amended: for the supervised Public Endpoint (part_001), on every
handshake failure — short read of the token, RSA decryption failure, or
secret mismatch — P closes the tunnel transport and only the current
iteration fails: the outcome is a 3-second backoff and retry, no Session is
constructed, and the process does not exit.  The single-shot
`reverse/server/server.go` variant instead terminates the process via
`log.Fatalf` (see the counterexample). -/
theorem C2_handshake_failure_retries (key : RSAKey) (secret : List Nat)
    (env : PIterEnv) (h : HandshakeFailed key secret env) :
    (runPIter key secret env).outcome = POutcome.retry 3 ∧
    (runPIter key secret env).tunnelClosed = true ∧
    (runPIter key secret env).sessionOpened = false := by
  obtain ⟨hc, hk, hl, ha, hfail⟩ := h
  rw [runPIter, hc, hk, hl, ha]
  simp only [Bool.true_eq_false, if_false]
  rcases hfail with hshort | ⟨hlong, hdec⟩
  · rw [if_pos hshort]
    exact ⟨rfl, rfl, rfl⟩
  · rw [if_neg (by omega)]
    rcases hdecm : decryptPKCS1v15 key (env.tunnelInput.take handshakeReadLen)
      with _ | token
    · simp only [hdecm]
      exact ⟨trivial, trivial, trivial⟩
    · rw [hdecm] at hdec
      have hdec2 : token ≠ secret := hdec
      simp only [hdecm]
      rw [if_pos hdec2]
      exact ⟨rfl, rfl, rfl⟩

/-- Witness for C2 amended: with everything up but the peer sending nothing
(short read), the supervised iteration retries after 3 seconds with the
transport closed and no session. -/
theorem C2_handshake_failure_retries_witness :
    (runPIter smallKey secretS envShortRead).outcome = POutcome.retry 3 ∧
    (runPIter smallKey secretS envShortRead).tunnelClosed = true ∧
    (runPIter smallKey secretS envShortRead).sessionOpened = false :=
  C2_handshake_failure_retries smallKey secretS envShortRead
    ⟨rfl, rfl, rfl, rfl, Or.inl (by decide)⟩

/-- C7 amended: the handshake on the wire is exactly the ciphertext
`RSAES-PKCS1-v1_5(public_key, secret)` with no framing, length prefix or
trailing bytes — R writes exactly `modulus_len` ciphertext bytes (256 for a
2048-bit key).  P, however, reads a hardcoded 256 bytes
(`make([]byte, 256)` + `io.ReadFull`) whatever the key; this equals
`modulus_len` exactly when the modulus is 256 bytes long. -/
theorem C7_wire_format (key : RSAKey) (ps msg : List Nat) :
    (encryptPKCS1v15 key ps msg).length = modulusLen key ∧
    handshakeReadLen = 256 ∧
    (modulusLen key = 256 →
      (encryptPKCS1v15 key ps msg).length = handshakeReadLen) := by
  refine ⟨i2osp_length _ _, rfl, ?_⟩
  intro h
  rw [encryptPKCS1v15, i2osp_length, h]
  rfl

/-- C7 counterexample: under a configured, functioning RSA keypair whose
modulus is 12 bytes (92-bit scale), R writes the 12 ciphertext bytes of the
encryption, but P still reads 256 bytes — "P reads exactly modulus_len
bytes" fails for every configured key that is not 2048-bit. -/
theorem C7_counterexample :
    RSAInv smallKey ∧
    modulusLen smallKey = 12 ∧ handshakeReadLen = 256 ∧
    handshakeReadLen ≠ modulusLen smallKey ∧
    (encryptPKCS1v15 smallKey (List.replicate 8 7) secretS).length =
      modulusLen smallKey := by
  exact ⟨smallKey_rsaInv, by decide, rfl, by decide, i2osp_length _ _⟩

/-- Witness for C7 amended: for the 256-modulus-byte witness key the
ciphertext length R writes equals the 256 bytes P reads. -/
theorem C7_wire_format_witness :
    (encryptPKCS1v15 bigKey (List.replicate 252 7) secretS).length =
      handshakeReadLen :=
  (C7_wire_format bigKey (List.replicate 252 7) secretS).2.2 (by decide)

/-- C8 (code bug): a PEM input whose block has type `PUBLIC KEY` and whose
PKIX key parses but is not RSA (here: an ECDSA key) does not make
`loadPublicKey` return an error — the unchecked type assertion
`pub.(*rsa.PublicKey)` (client.go line 55) panics, crashing the process
instead of aborting the iteration. -/
theorem C8_loadPublicKey_panics_on_non_rsa :
    loadPublicKey ecdsaPEMInput = LoadPubResult.panicked := rfl

end TunnelEngine
